import Mathlib

/-!
Verification of the twilight-bucket rate limiter.

A shallow embedding of `src/src/lib.rs` (crate `twilight-bucket`), a
fixed-window rate limiter, together with proofs about its two operations
`Bucket::register` and `Bucket::limit_duration`.

Modelling choices, each traced to the source:

* `Instant` and `Duration` become `Nat` (an abstract count of time units).
  Rust's `Instant - Instant` (`duration_since`) saturates at zero, which is
  exactly `Nat` subtraction; `Instant::now` is monotone, so in trace-level
  statements the query/registration times are nondecreasing hypotheses.
* `NonZeroUsize` counts become `Nat`; `usize` is 64 bits wide in the
  reference configuration, so the increment `usage.count.get() + 1` in
  `register` overflows (and the surrounding `try_into().unwrap()` panics,
  as the `# Panics` doc of `register` states) exactly when the stored
  count equals `usize::MAX = 2^64 - 1`.  Fallible code returns `Option`:
  `register` returns `none` on that documented panic.
* The `DashMap<NonZeroU64, Usage>` becomes an association list
  `List (Nat × Usage)`; `lookupU` models `get`/`get_mut` lookup and
  `insertU` models both in-place mutation through `get_mut` and `insert`
  (both leave every other key's entry untouched).
* `limit_duration` takes `&self` in the source and only calls
  `DashMap::get`; it is embedded as a pure function, and the operational
  layer (`Bucket.step`, `run`, `runOut`) makes state preservation of
  queries explicit.
-/

/-- Value of `usize::MAX` for the 64-bit targets the crate is built for. -/
def usizeMax : Nat := 2 ^ 64 - 1

/-- Structure `Limit` from the source: `duration: Duration`, `count: NonZeroUsize`.
Positivity of `count` (`NonZeroUsize`) is carried as a hypothesis where a
statement needs it. -/
structure Limit where
  duration : Nat
  count : Nat
deriving DecidableEq

/-- Constructor `Limit::new(duration, count)`. -/
def Limit.new (duration : Nat) (count : Nat) : Limit :=
  { duration := duration, count := count }

/-- Structure `Usage` from the source: `time: Instant` (last use), `count: NonZeroUsize`
(uses in the current window). -/
structure Usage where
  time : Nat
  count : Nat
deriving DecidableEq

/-- Constructor `Usage::new()`: now as `time` and 1 as `count`; the `Instant::now()` it
reads is the explicit `now` argument. -/
def Usage.new (now : Nat) : Usage :=
  { time := now, count := 1 }

/-- Lookup in the identifier-to-usage map, modelling `DashMap::get` /
`DashMap::get_mut` on key `id`. -/
def lookupU : List (Nat × Usage) → Nat → Option Usage
  | [], _ => none
  | (k, u) :: rest, id => if k = id then some u else lookupU rest id

/-- Store a usage under `id`, modelling both mutation through a
`get_mut` guard and `DashMap::insert`: the entry for `id` becomes `u`,
every other entry is untouched. -/
def insertU : List (Nat × Usage) → Nat → Usage → List (Nat × Usage)
  | [], id, u => [(id, u)]
  | (k, v) :: rest, id, u =>
      if k = id then (id, u) :: rest else (k, v) :: insertU rest id u

/-- Structure `Bucket` from the source: the fixed `Limit` and the usage map. -/
structure Bucket where
  limit : Limit
  usages : List (Nat × Usage)
deriving DecidableEq

/-- Constructor `Bucket::new(limit)`: empty usage map. -/
def Bucket.new (limit : Limit) : Bucket :=
  { limit := limit, usages := [] }

/-- Operation `Bucket::register(&self, id)`, with `Instant::now()` passed in as `now`.

Source (lines 167-182): on a hit, if `now - usage.time > self.limit.duration`
the count resets to 1, otherwise it becomes `usage.count.get() + 1`
(`try_into().unwrap()`, which panics when the old count is `usize::MAX`),
and `usage.time` becomes `now` in both branches; on a miss, `Usage::new()`
is inserted.  `none` is the documented overflow panic. -/
def Bucket.register (b : Bucket) (now id : Nat) : Option Bucket :=
  match lookupU b.usages id with
  | some usage =>
      if b.limit.duration < now - usage.time then
        some { b with usages := insertU b.usages id { time := now, count := 1 } }
      else if usage.count < usizeMax then
        some { b with
               usages := insertU b.usages id { time := now, count := usage.count + 1 } }
      else
        none
  | none =>
      some { b with usages := insertU b.usages id (Usage.new now) }

/-- Operation `Bucket::limit_duration(&self, id)`, with `Instant::now()` passed in as
`now`.

Source (lines 188-193): `let usage = self.usages.get(&id)?;` then
`Some(limit.duration - elapsed)` exactly when
`usage.count >= limit.count && limit.duration > elapsed`. -/
def Bucket.limit_duration (b : Bucket) (now id : Nat) : Option Nat :=
  match lookupU b.usages id with
  | none => none
  | some usage =>
      if b.limit.count ≤ usage.count ∧ now - usage.time < b.limit.duration then
        some (b.limit.duration - (now - usage.time))
      else
        none

/-- One API call of the crate: either `register(id)` or `limit_duration(id)`,
tagged with the `Instant::now()` it observes. -/
inductive Op where
  | register (now id : Nat)
  | query (now id : Nat)
deriving DecidableEq

/-- The identifier an operation addresses. -/
def Op.key : Op → Nat
  | .register _ id => id
  | .query _ id => id

/-- One API call as a state transformer.  `register` mutates the bucket
(and `none` is its overflow panic); `limit_duration` takes `&self` and only
reads, so its step leaves the bucket unchanged and produces the answer. -/
def Bucket.step (b : Bucket) : Op → Option (Bucket × Option Nat)
  | Op.register now id => (b.register now id).map fun b2 => (b2, none)
  | Op.query now id => some (b, b.limit_duration now id)

/-- Run a sequence of API calls, returning the final bucket (`none` as soon
as a `register` panics). -/
def run (b : Bucket) : List Op → Option Bucket
  | [] => some b
  | op :: ops => (b.step op).bind fun p => run p.1 ops

/-- Run a sequence of API calls, also collecting each call's answer. -/
def runOut (b : Bucket) : List Op → Option (Bucket × List (Option Nat))
  | [] => some (b, [])
  | op :: ops => (b.step op).bind fun p =>
      (runOut p.1 ops).map fun q => (q.1, p.2 :: q.2)

/-- Iterate `n` consecutive `register(id)` calls all observing the same `now`
("in quick succession"). -/
def registerTimes (b : Bucket) (now id : Nat) : Nat → Option Bucket
  | 0 => some b
  | n + 1 => (registerTimes b now id n).bind fun b2 => b2.register now id

example : (Bucket.new (Limit.new 10 1)).limit_duration 3 7 = none := by decide

example :
    (Bucket.new (Limit.new 10 1)).register 3 7 =
      some { limit := Limit.new 10 1, usages := [(7, { time := 3, count := 1 })] } := by
  decide

example :
    ({ limit := Limit.new 10 1,
       usages := [(7, { time := 3, count := 1 })] } : Bucket).limit_duration 5 7 =
      some 8 := by
  decide

/-- Looking up the key just stored finds the stored usage. -/
theorem lookupU_insertU_self (m : List (Nat × Usage)) (id : Nat) (u : Usage) :
    lookupU (insertU m id u) id = some u := by
  induction m with
  | nil => simp [insertU, lookupU]
  | cons p rest ih =>
    obtain ⟨k, v⟩ := p
    by_cases hk : k = id
    · simp [insertU, lookupU, hk]
    · simp [insertU, lookupU, hk, ih]

/-- Storing under `id` leaves the entry of every other key unchanged. -/
theorem lookupU_insertU_ne (m : List (Nat × Usage)) (id k : Nat) (u : Usage)
    (h : k ≠ id) : lookupU (insertU m id u) k = lookupU m k := by
  have h' : id ≠ k := Ne.symm h
  induction m with
  | nil => simp [insertU, lookupU, h']
  | cons p rest ih =>
    obtain ⟨k', v⟩ := p
    by_cases hk : k' = id
    · subst hk
      simp [insertU, lookupU, h']
    · by_cases hk2 : k' = k
      · simp [insertU, lookupU, hk, hk2, h]
      · simp [insertU, lookupU, hk, hk2, ih]

/-- On a missing key, `register` inserts `Usage::new()`. -/
theorem register_of_miss (b : Bucket) (now id : Nat)
    (h : lookupU b.usages id = none) :
    b.register now id =
      some { b with usages := insertU b.usages id { time := now, count := 1 } } := by
  simp [Bucket.register, h, Usage.new]

/-- On a hit with `now - usage.time > limit.duration`, `register` resets the
count to 1 and the time to `now`. -/
theorem register_of_expired (b : Bucket) (now id : Nat) (u : Usage)
    (hu : lookupU b.usages id = some u)
    (h : b.limit.duration < now - u.time) :
    b.register now id =
      some { b with usages := insertU b.usages id { time := now, count := 1 } } := by
  simp [Bucket.register, hu, h]

/-- On a hit still inside the window, `register` increments the count and
advances the time to `now`, provided the increment does not overflow. -/
theorem register_of_in_window (b : Bucket) (now id : Nat) (u : Usage)
    (hu : lookupU b.usages id = some u)
    (h : ¬ b.limit.duration < now - u.time)
    (hc : u.count < usizeMax) :
    b.register now id =
      some { b with
             usages := insertU b.usages id { time := now, count := u.count + 1 } } := by
  simp [Bucket.register, hu, h, hc]

/-- On a hit inside the window with the count already at `usize::MAX`,
`register` hits its documented panic. -/
theorem register_of_overflow (b : Bucket) (now id : Nat) (u : Usage)
    (hu : lookupU b.usages id = some u)
    (h : ¬ b.limit.duration < now - u.time)
    (hc : ¬ u.count < usizeMax) :
    b.register now id = none := by
  simp [Bucket.register, hu, h, hc]

/-- C1: `limit_duration(id)` returns `some r` with
`r = limit.duration - elapsed` strictly positive exactly when a record for
`id` exists, its elapsed time is strictly inside the window, and its count
has reached `limit.count`; in every other case (no record, window expired,
count below the maximum) it returns `none`, and in particular it returns
`none` for any identifier without a record (fresh identifier). -/
theorem limit_duration_characterization (b : Bucket) (now id r : Nat) :
    (b.limit_duration now id = some r ↔
      ∃ u, lookupU b.usages id = some u ∧ b.limit.count ≤ u.count ∧
        now - u.time < b.limit.duration ∧
        r = b.limit.duration - (now - u.time) ∧ 0 < r) ∧
    (lookupU b.usages id = none → b.limit_duration now id = none) := by
  constructor
  · constructor
    · intro h
      cases hu : lookupU b.usages id with
      | none => simp [Bucket.limit_duration, hu] at h
      | some u =>
        by_cases hc : b.limit.count ≤ u.count ∧ now - u.time < b.limit.duration
        · simp [Bucket.limit_duration, hu, hc.1, hc.2] at h
          exact ⟨u, rfl, hc.1, hc.2, h.symm, by omega⟩
        · simp [Bucket.limit_duration, hu, hc] at h
    · rintro ⟨u, hu, hcnt, helapsed, hr, -⟩
      simp [Bucket.limit_duration, hu, hcnt, helapsed, hr]
  · intro h
    simp [Bucket.limit_duration, h]

/-- Witness for C1: a concrete limited state where the theorem yields the
remaining wait `10 - 1 = 9`. -/
theorem limit_duration_characterization_witness :
    ({ limit := { duration := 10, count := 2 },
       usages := [(5, { time := 3, count := 2 })] } : Bucket).limit_duration 4 5 =
      some 9 :=
  (limit_duration_characterization
      { limit := { duration := 10, count := 2 },
        usages := [(5, { time := 3, count := 2 })] } 4 5 9).1.mpr
    ⟨{ time := 3, count := 2 }, by decide, by decide, by decide, by decide, by decide⟩

/-- C2 (amended): `register(id)` creates a count-1 record at `now` when no
record exists; resets to count 1 at `now` when `elapsed > limit.duration`;
and otherwise increments the count and advances the window start to `now`
(refresh-on-register), provided the stored count is below `usize::MAX`
(at `usize::MAX` the increment is the documented overflow panic instead). -/
theorem register_algorithm (b : Bucket) (now id : Nat) :
    (lookupU b.usages id = none →
      b.register now id =
        some { b with usages := insertU b.usages id { time := now, count := 1 } }) ∧
    (∀ u, lookupU b.usages id = some u →
      (b.limit.duration < now - u.time →
        b.register now id =
          some { b with usages := insertU b.usages id { time := now, count := 1 } }) ∧
      (now - u.time ≤ b.limit.duration → u.count < usizeMax →
        b.register now id =
          some { b with
                 usages := insertU b.usages id
                   { time := now, count := u.count + 1 } })) := by
  refine ⟨fun h => register_of_miss b now id h, fun u hu => ⟨?_, ?_⟩⟩
  · intro h
    exact register_of_expired b now id u hu h
  · intro h hc
    exact register_of_in_window b now id u hu (by omega) hc

/-- Witness for C2 (amended): a fresh registration creates the count-1
record. -/
theorem register_algorithm_witness :
    (Bucket.new (Limit.new 10 1)).register 3 7 =
      some { limit := Limit.new 10 1,
             usages := insertU (Bucket.new (Limit.new 10 1)).usages 7
               { time := 3, count := 1 } } :=
  (register_algorithm (Bucket.new (Limit.new 10 1)) 3 7).1 rfl

/-- Bucket state whose record for identifier 7 has its count at `usize::MAX`
with elapsed time 0 inside a 10-unit window. -/
def saturatedBucket : Bucket :=
  { limit := { duration := 10, count := 1 },
    usages := [(7, { time := 0, count := usizeMax })] }

/-- Counterexample for C2 as stated: at a record whose count is `usize::MAX`
and whose elapsed time is inside the window, `register` does not increment
the count — it panics (the `try_into().unwrap()` of `usage.count.get() + 1`),
returning `none` instead of the incremented record the claim requires. -/
theorem register_increment_counterexample :
    saturatedBucket.register 0 7 = none ∧
    saturatedBucket.register 0 7 ≠
      some { limit := { duration := 10, count := 1 },
             usages := [(7, { time := 0, count := usizeMax + 1 })] } := by
  have h : saturatedBucket.register 0 7 = none := by
    apply register_of_overflow _ _ _ { time := 0, count := usizeMax }
    · simp [saturatedBucket, lookupU]
    · simp [saturatedBucket]
    · simp
  exact ⟨h, by simp [h]⟩

/-- Iterating `register(id)` `k` times on a fresh bucket, all at the same
instant `t`, succeeds for every `k` up to `usize::MAX` and leaves exactly
one record: `(id, { time := t, count := k })`. -/
theorem registerTimes_fresh (w c t id k : Nat) (hk1 : 1 ≤ k) (hk2 : k ≤ usizeMax) :
    registerTimes (Bucket.new { duration := w, count := c }) t id k =
      some { limit := { duration := w, count := c },
             usages := [(id, { time := t, count := k })] } := by
  induction k with
  | zero => omega
  | succ n ih =>
    rcases Nat.eq_zero_or_pos n with hn | hn
    · subst hn
      simp [registerTimes, Bucket.register, Bucket.new, lookupU, insertU, Usage.new]
    · have hmax : n < usizeMax := by omega
      rw [registerTimes, ih hn (by omega)]
      rw [Option.some_bind]
      rw [register_of_in_window _ t id { time := t, count := n }]
      · simp [insertU]
      · simp [lookupU]
      · simp
      · exact hmax

/-- C3: with `limit.count = n` (positive, representable) and a fresh
identifier, `n` registrations in quick succession inside a positive window
each see `limit_duration = none` beforehand, and only after the `n`-th
registration does `limit_duration` report a wait — namely the full window. -/
theorem count_n_allows_n (w n t id : Nat) (hw : 0 < w) (hn : 0 < n)
    (hmax : n ≤ usizeMax) :
    (∀ k, k < n → ∃ b2,
      registerTimes (Bucket.new { duration := w, count := n }) t id k = some b2 ∧
      b2.limit_duration t id = none) ∧
    (∃ b2,
      registerTimes (Bucket.new { duration := w, count := n }) t id n = some b2 ∧
      b2.limit_duration t id = some w) := by
  constructor
  · intro k hk
    rcases Nat.eq_zero_or_pos k with h0 | h1
    · subst h0
      refine ⟨_, rfl, ?_⟩
      simp [Bucket.limit_duration, Bucket.new, lookupU]
    · refine ⟨_, registerTimes_fresh w n t id k h1 (by omega), ?_⟩
      simp [Bucket.limit_duration, lookupU]
      intro hcnt
      omega
  · refine ⟨_, registerTimes_fresh w n t id n hn hmax, ?_⟩
    simp [Bucket.limit_duration, lookupU, hw]

/-- Witness for C3 at the configuration of the crate's `limit_count_5` test:
window 5, `max_count` 5, identifier 123, all calls at instant 0. -/
theorem count_n_allows_n_witness :
    (∀ k, k < 5 → ∃ b2,
      registerTimes (Bucket.new { duration := 5, count := 5 }) 0 123 k = some b2 ∧
      b2.limit_duration 0 123 = none) ∧
    (∃ b2,
      registerTimes (Bucket.new { duration := 5, count := 5 }) 0 123 5 = some b2 ∧
      b2.limit_duration 0 123 = some 5) :=
  count_n_allows_n 5 5 0 123 (by decide) (by decide) (by decide)

/-- C4: `limit_duration` is a pure read.  As one operational step it leaves
the bucket state exactly as it was and returns its answer, and two
consecutive queries with no intervening `register`, at the same instant,
leave the state unchanged and return the same answer twice. -/
theorem query_is_pure (b : Bucket) (now id : Nat) :
    b.step (Op.query now id) = some (b, b.limit_duration now id) ∧
    runOut b [Op.query now id, Op.query now id] =
      some (b, [b.limit_duration now id, b.limit_duration now id]) := by
  exact ⟨rfl, rfl⟩

/-- Any successful `register(id)` leaves the record of every other key and
the limit unchanged. -/
theorem register_preserves_other (b : Bucket) (now id k : Nat) (hk : k ≠ id)
    (b2 : Bucket) (h : b.register now id = some b2) :
    lookupU b2.usages k = lookupU b.usages k ∧ b2.limit = b.limit := by
  unfold Bucket.register at h
  cases hu : lookupU b.usages id with
  | none =>
    rw [hu] at h
    simp only [Option.some.injEq] at h
    subst h
    exact ⟨lookupU_insertU_ne _ _ _ _ hk, rfl⟩
  | some u =>
    rw [hu] at h
    by_cases h1 : b.limit.duration < now - u.time
    · simp only [if_pos h1, Option.some.injEq] at h
      subst h
      exact ⟨lookupU_insertU_ne _ _ _ _ hk, rfl⟩
    · by_cases h2 : u.count < usizeMax
      · simp only [if_neg h1, if_pos h2, Option.some.injEq] at h
        subst h
        exact ⟨lookupU_insertU_ne _ _ _ _ hk, rfl⟩
      · simp only [if_neg h1, if_neg h2] at h
        cases h

/-- `limit_duration` depends only on the limit and on the record of the
queried key. -/
theorem limit_duration_congr (b b2 : Bucket) (now id : Nat)
    (h1 : lookupU b2.usages id = lookupU b.usages id)
    (h2 : b2.limit = b.limit) :
    b2.limit_duration now id = b.limit_duration now id := by
  unfold Bucket.limit_duration
  rw [h1, h2]

/-- Running any sequence of calls that all address identifier `id` leaves
the record of every other key and the limit unchanged. -/
theorem run_preserves_other (ops : List Op) :
    ∀ (b : Bucket) (id k : Nat), k ≠ id → (∀ op ∈ ops, Op.key op = id) →
    ∀ b2, run b ops = some b2 →
      lookupU b2.usages k = lookupU b.usages k ∧ b2.limit = b.limit := by
  induction ops with
  | nil =>
    intro b id k _ _ b2 h
    simp only [run, Option.some.injEq] at h
    subst h
    exact ⟨rfl, rfl⟩
  | cons op rest ih =>
    intro b id k hk hall b2 h
    cases op with
    | query now' id' =>
      simp only [run, Bucket.step, Option.some_bind] at h
      exact ih b id k hk (fun o ho => hall o (List.mem_cons_of_mem _ ho)) b2 h
    | register now' id' =>
      have hid : id' = id := hall _ (List.mem_cons_self _ _)
      subst hid
      simp only [run, Bucket.step] at h
      cases hreg : b.register now' id' with
      | none => rw [hreg] at h; cases h
      | some b' =>
        rw [hreg] at h
        simp only [Option.map, Option.some_bind] at h
        have hstep := register_preserves_other b now' id' k hk b' hreg
        have hrest := ih b' id' k hk (fun o ho => hall o (List.mem_cons_of_mem _ ho)) b2 h
        exact ⟨hrest.1.trans hstep.1, hrest.2.trans hstep.2⟩

/-- C5: `register(id)` mutates or inserts only the record for `id`: every
other key's record (and the limit) is untouched, and consequently any
sequence of calls addressing only `id` never changes `limit_duration(k)`
for a distinct identifier `k`. -/
theorem register_frame (b : Bucket) (now id k : Nat) (hk : k ≠ id) :
    (∀ b2, b.register now id = some b2 →
      lookupU b2.usages k = lookupU b.usages k ∧ b2.limit = b.limit) ∧
    (∀ ops, (∀ op ∈ ops, Op.key op = id) →
      ∀ b2, run b ops = some b2 →
        ∀ t, b2.limit_duration t k = b.limit_duration t k) := by
  constructor
  · intro b2 h
    exact register_preserves_other b now id k hk b2 h
  · intro ops hall b2 h t
    obtain ⟨h1, h2⟩ := run_preserves_other ops b id k hk hall b2 h
    exact limit_duration_congr b b2 t k h1 h2

/-- Witness for C5: registering identifier 7 in a bucket that already holds
a record for identifier 3 leaves the record of 3 (and the limit)
unchanged, instantiated at the concrete post-registration state. -/
theorem register_frame_witness :
    lookupU ({ limit := { duration := 10, count := 1 },
               usages := [(3, { time := 0, count := 1 }),
                          (7, { time := 4, count := 1 })] } : Bucket).usages 3 =
      lookupU ({ limit := { duration := 10, count := 1 },
                 usages := [(3, { time := 0, count := 1 })] } : Bucket).usages 3 ∧
    ({ limit := { duration := 10, count := 1 },
       usages := [(3, { time := 0, count := 1 }),
                  (7, { time := 4, count := 1 })] } : Bucket).limit =
      ({ limit := { duration := 10, count := 1 },
         usages := [(3, { time := 0, count := 1 })] } : Bucket).limit :=
  (register_frame
    { limit := { duration := 10, count := 1 },
      usages := [(3, { time := 0, count := 1 })] } 4 7 3 (by decide)).1
    { limit := { duration := 10, count := 1 },
      usages := [(3, { time := 0, count := 1 }), (7, { time := 4, count := 1 })] }
    (by decide)

/-- Invariant: every stored count is at most `n`. -/
def countsLe (b : Bucket) (n : Nat) : Prop :=
  ∀ id u, lookupU b.usages id = some u → u.count ≤ n

/-- The count bound is monotone. -/
theorem countsLe_mono (b : Bucket) (n m : Nat) (h : countsLe b n) (hnm : n ≤ m) :
    countsLe b m :=
  fun id u hu => le_trans (h id u hu) hnm

/-- If every count is at most `n < usize::MAX`, one more `register` cannot
panic, and afterwards every count is at most `n + 1`. -/
theorem register_countsLe (b : Bucket) (now id n : Nat)
    (h : countsLe b n) (hn : n < usizeMax) :
    ∃ b2, b.register now id = some b2 ∧ countsLe b2 (n + 1) := by
  have hbound : ∀ v : Usage, ∀ m : List (Nat × Usage), v.count ≤ n + 1 →
      (∀ i u, lookupU m i = some u → u.count ≤ n) →
      countsLe { b with usages := insertU m id v } (n + 1) := by
    intro v m hv hm i u hu
    by_cases hi : i = id
    · subst hi
      rw [lookupU_insertU_self] at hu
      cases hu
      exact hv
    · rw [lookupU_insertU_ne _ _ _ _ hi] at hu
      exact le_trans (hm i u hu) (Nat.le_succ n)
  cases hu : lookupU b.usages id with
  | none =>
    refine ⟨_, register_of_miss b now id hu, ?_⟩
    exact hbound _ _ (by show 1 ≤ n + 1; omega) h
  | some u =>
    by_cases h1 : b.limit.duration < now - u.time
    · refine ⟨_, register_of_expired b now id u hu h1, ?_⟩
      exact hbound _ _ (by show 1 ≤ n + 1; omega) h
    · have hcu : u.count ≤ n := h id u hu
      refine ⟨_, register_of_in_window b now id u hu h1 (by omega), ?_⟩
      exact hbound _ _ (by show u.count + 1 ≤ n + 1; omega) h

/-- Running `ops` from a state whose counts are at most `n` succeeds
whenever `n + ops.length` stays within `usize::MAX`, and the bound grows by
at most one per operation. -/
theorem run_countsLe (ops : List Op) :
    ∀ (b : Bucket) (n : Nat), countsLe b n → n + ops.length ≤ usizeMax →
    ∃ b2, run b ops = some b2 ∧ countsLe b2 (n + ops.length) := by
  induction ops with
  | nil =>
    intro b n h _
    exact ⟨b, rfl, by simpa using h⟩
  | cons op rest ih =>
    intro b n h hlen
    cases op with
    | query now' id' =>
      obtain ⟨b2, hrun, hc⟩ := ih b n h (by simp at hlen ⊢; omega)
      refine ⟨b2, ?_, ?_⟩
      · simp only [run, Bucket.step, Option.some_bind]
        exact hrun
      · refine countsLe_mono _ _ _ hc ?_
        simp only [List.length_cons]
        omega
    | register now' id' =>
      obtain ⟨b', hreg, hc'⟩ := register_countsLe b now' id' n h
        (by simp at hlen; omega)
      obtain ⟨b2, hrun, hc⟩ := ih b' (n + 1) hc' (by simp at hlen ⊢; omega)
      refine ⟨b2, ?_, ?_⟩
      · simp only [run, Bucket.step, hreg, Option.map, Option.some_bind]
        exact hrun
      · refine countsLe_mono _ _ _ hc ?_
        simp only [List.length_cons]
        omega

/-- C6 (amended): starting from a fresh bucket, no sequence of at most
`usize::MAX` `register`/`limit_duration` calls can make `register` panic:
every count stays representable and the whole run succeeds.  (The bound is
tight: the counterexample shows the `2^64`-th consecutive in-window
registration panics, as the source's own `# Panics` section documents.) -/
theorem register_no_panic (l : Limit) (ops : List Op)
    (h : ops.length ≤ usizeMax) :
    ∃ b2, run (Bucket.new l) ops = some b2 := by
  have hstart : countsLe (Bucket.new l) 0 := by
    intro id u hu
    simp [Bucket.new, lookupU] at hu
  obtain ⟨b2, hrun, -⟩ := run_countsLe ops (Bucket.new l) 0 hstart (by omega)
  exact ⟨b2, hrun⟩

/-- Witness for C6 (amended): a short concrete trace runs without panic. -/
theorem register_no_panic_witness :
    ∃ b2, run (Bucket.new (Limit.new 2 1))
      [Op.register 0 9, Op.query 1 9, Op.register 1 9] = some b2 :=
  register_no_panic (Limit.new 2 1)
    [Op.register 0 9, Op.query 1 9, Op.register 1 9] (by decide)

/-- Counterexample for C6 as stated: the panic is reachable from legitimate
use.  After `usize::MAX` consecutive in-window `register(7)` calls (a state
reachable by a sequence of register calls alone), the next `register(7)`
overflows the count and panics: the `(usize::MAX + 1)`-fold iteration of
`register` returns `none`. -/
theorem register_panic_reachable :
    registerTimes (Bucket.new { duration := 1, count := 1 }) 0 7 (usizeMax + 1) =
      none := by
  have hfull := registerTimes_fresh 1 1 0 7 usizeMax
    (by norm_num [usizeMax]) le_rfl
  rw [registerTimes, hfull, Option.some_bind]
  apply register_of_overflow _ _ _ { time := 0, count := usizeMax }
  · simp [lookupU]
  · simp
  · simp

/-- C7: with no intervening `register`, the passage of wall-clock time is
monotone toward "not limited" over a fixed record written at `u.time`
(monotone `Instant::now`, so queries happen no earlier than the record):
a `none` answer stays `none` at any later instant, the remaining wait of
two `some` answers strictly decreases, and once the elapsed time reaches
the window the answer is `none`. -/
theorem wait_monotone (b : Bucket) (id t1 t2 : Nat) (u : Usage)
    (hu : lookupU b.usages id = some u) (ht1 : u.time ≤ t1) (h12 : t1 < t2) :
    (b.limit_duration t1 id = none → b.limit_duration t2 id = none) ∧
    (∀ d1 d2, b.limit_duration t1 id = some d1 →
      b.limit_duration t2 id = some d2 → d2 < d1) ∧
    (b.limit.duration ≤ t2 - u.time → b.limit_duration t2 id = none) := by
  refine ⟨?_, ?_, ?_⟩
  · intro h1
    by_cases hc2 : b.limit.count ≤ u.count ∧ t2 - u.time < b.limit.duration
    · have hlt : t1 - u.time < b.limit.duration := by omega
      simp [Bucket.limit_duration, hu, hc2.1, hlt] at h1
    · simp [Bucket.limit_duration, hu, hc2]
  · intro d1 d2 h1 h2
    by_cases hc1 : b.limit.count ≤ u.count ∧ t1 - u.time < b.limit.duration
    · by_cases hc2 : b.limit.count ≤ u.count ∧ t2 - u.time < b.limit.duration
      · simp [Bucket.limit_duration, hu, hc1.1, hc1.2] at h1
        simp [Bucket.limit_duration, hu, hc2.1, hc2.2] at h2
        omega
      · simp [Bucket.limit_duration, hu, hc2] at h2
    · simp [Bucket.limit_duration, hu, hc1] at h1
  · intro hw
    have hn : ¬ (b.limit.count ≤ u.count ∧ t2 - u.time < b.limit.duration) := by
      omega
    simp [Bucket.limit_duration, hu, hn]

/-- Witness for C7: with window 10 and a record at instant 0, the waits at
instants 2 and 5 are 8 and 5, and the theorem yields `5 < 8`. -/
theorem wait_monotone_witness :
    ({ limit := { duration := 10, count := 1 },
       usages := [(4, { time := 0, count := 1 })] } : Bucket).limit_duration 2 4 =
        some 8 ∧
    ({ limit := { duration := 10, count := 1 },
       usages := [(4, { time := 0, count := 1 })] } : Bucket).limit_duration 5 4 =
        some 5 ∧
    (5 : Nat) < 8 := by
  refine ⟨by decide, by decide, ?_⟩
  exact (wait_monotone
    { limit := { duration := 10, count := 1 },
      usages := [(4, { time := 0, count := 1 })] } 4 2 5 { time := 0, count := 1 }
    (by decide) (by decide) (by decide)).2.1 8 5 (by decide) (by decide)

/-- Any successful `register` keeps the bucket's limit. -/
theorem register_preserves_limit (b : Bucket) (now id : Nat) (b2 : Bucket)
    (h : b.register now id = some b2) : b2.limit = b.limit := by
  unfold Bucket.register at h
  cases hu : lookupU b.usages id with
  | none =>
    rw [hu] at h
    simp only [Option.some.injEq] at h
    subst h
    rfl
  | some u =>
    rw [hu] at h
    by_cases h1 : b.limit.duration < now - u.time
    · simp only [if_pos h1, Option.some.injEq] at h
      subst h
      rfl
    · by_cases h2 : u.count < usizeMax
      · simp only [if_neg h1, if_pos h2, Option.some.injEq] at h
        subst h
        rfl
      · simp only [if_neg h1, if_neg h2] at h
        cases h

/-- Running any call sequence keeps the bucket's limit. -/
theorem run_preserves_limit (ops : List Op) :
    ∀ b b2, run b ops = some b2 → b2.limit = b.limit := by
  induction ops with
  | nil =>
    intro b b2 h
    simp only [run, Option.some.injEq] at h
    subst h
    rfl
  | cons op rest ih =>
    intro b b2 h
    cases op with
    | query now id =>
      simp only [run, Bucket.step, Option.some_bind] at h
      exact ih b b2 h
    | register now id =>
      simp only [run, Bucket.step] at h
      cases hreg : b.register now id with
      | none => rw [hreg] at h; cases h
      | some b' =>
        rw [hreg] at h
        simp only [Option.map, Option.some_bind] at h
        exact (ih b' b2 h).trans (register_preserves_limit b now id b' hreg)

/-- With a zero window, `limit_duration` is `none` in every state: the
condition `limit.duration > elapsed` can never hold. -/
theorem limit_duration_of_zero_window (b : Bucket) (h : b.limit.duration = 0)
    (now id : Nat) : b.limit_duration now id = none := by
  cases hu : lookupU b.usages id with
  | none => simp [Bucket.limit_duration, hu]
  | some u => simp [Bucket.limit_duration, hu, h]

/-- C8: a `Limit` with zero window degenerates to "always allow": after any
sequence of calls on a fresh bucket, `limit_duration` answers `none` for
every identifier at every instant. -/
theorem zero_window_always_allows (c now id : Nat) (ops : List Op) :
    ((run (Bucket.new { duration := 0, count := c }) ops).bind
      fun b => b.limit_duration now id) = none := by
  cases hrun : run (Bucket.new { duration := 0, count := c }) ops with
  | none => rfl
  | some b2 =>
    have hl := run_preserves_limit ops _ b2 hrun
    simp only [Option.some_bind]
    exact limit_duration_of_zero_window b2 (by rw [hl]; rfl) now id

/-- C10: when the elapsed time equals the window exactly, `limit_duration`
already answers `none` (strict `limit.duration > elapsed` fails), yet
`register` still takes the in-window branch (strict `elapsed >
limit.duration` also fails) and increments the count instead of resetting
it.  The hypotheses `0 < u.count < usize::MAX` are the `NonZeroUsize`
range of the stored counter. -/
theorem window_boundary (b : Bucket) (now id : Nat) (u : Usage)
    (hu : lookupU b.usages id = some u)
    (helapsed : now - u.time = b.limit.duration)
    (hpos : 0 < u.count) (hc : u.count < usizeMax) :
    b.limit_duration now id = none ∧
    b.register now id =
      some { b with
             usages := insertU b.usages id
               { time := now, count := u.count + 1 } } ∧
    b.register now id ≠
      some { b with
             usages := insertU b.usages id { time := now, count := 1 } } := by
  refine ⟨?_, ?_, ?_⟩
  · have hn : ¬ (b.limit.count ≤ u.count ∧ now - u.time < b.limit.duration) := by
      omega
    simp [Bucket.limit_duration, hu, hn]
  · exact register_of_in_window b now id u hu (by omega) hc
  · rw [register_of_in_window b now id u hu (by omega) hc]
    intro hcontra
    simp only [Option.some.injEq, Bucket.mk.injEq] at hcontra
    have h1 := congrArg (fun m => lookupU m id) hcontra.2
    simp only [lookupU_insertU_self] at h1
    simp only [Option.some.injEq, Usage.mk.injEq] at h1
    omega

/-- Witness for C10: window 5, record written at instant 2, queried and
registered at instant 7 (elapsed exactly 5). -/
theorem window_boundary_witness :
    ({ limit := { duration := 5, count := 1 },
       usages := [(7, { time := 2, count := 3 })] } : Bucket).limit_duration 7 7 =
        none ∧
    ({ limit := { duration := 5, count := 1 },
       usages := [(7, { time := 2, count := 3 })] } : Bucket).register 7 7 =
      some { limit := { duration := 5, count := 1 },
             usages := insertU [(7, { time := 2, count := 3 })] 7
               { time := 7, count := 3 + 1 } } ∧
    ({ limit := { duration := 5, count := 1 },
       usages := [(7, { time := 2, count := 3 })] } : Bucket).register 7 7 ≠
      some { limit := { duration := 5, count := 1 },
             usages := insertU [(7, { time := 2, count := 3 })] 7
               { time := 7, count := 1 } } :=
  window_boundary
    { limit := { duration := 5, count := 1 },
      usages := [(7, { time := 2, count := 3 })] } 7 7 { time := 2, count := 3 }
    (by decide) (by decide) (by decide) (by decide)
